import Mathlib

/-!
# Verification of the file-transformation service (`app.py`)

Shallow embedding of the three HTTP pipelines of `app.py`:

* `/extract`      — PDF text extraction with a 10,000-character cap (`extract_pdf`);
* `/excel-cleaner`— per-cell cleaning (`clean_cell`) plus row deduplication;
* `/pdf-compress` — Ghostscript invocation with temp-file lifecycle and
  size-gain accounting (`pdf_compress`).

Python strings are modelled as lists of Unicode codepoints (`List Nat`).
The character classes of Python's `re` module (`\w`, `\s`) and the case
maps used by `str.lower`/`str.capitalize` are modelled exactly on the
Basic Latin and Latin-1 Supplement repertoire (U+0000–U+00FF) together
with the case-mapping images that leave that range (Ÿ U+0178, Μ U+039C,
μ U+03BC, and the ß → "Ss" title-case expansion).  Codepoints above
U+00FF are conventionally treated as case-invariant word characters
unless they are Unicode whitespace; this matches Python for letters,
which are the only high codepoints the case maps can produce.
-/

/-- Python's whitespace class (`str.isspace`, `re` `\s`): the ASCII
whitespace controls, the C1/Latin-1 additions NEL and NBSP, and the
Unicode space separators. -/
def isSpaceCp (n : Nat) : Bool :=
  decide (n = 9 ∨ n = 10 ∨ n = 11 ∨ n = 12 ∨ n = 13 ∨
    n = 28 ∨ n = 29 ∨ n = 30 ∨ n = 31 ∨ n = 32 ∨
    n = 133 ∨ n = 160 ∨ n = 5760 ∨
    (8192 ≤ n ∧ n ≤ 8202) ∨ n = 8232 ∨ n = 8233 ∨
    n = 8239 ∨ n = 8287 ∨ n = 12288)

/-- Alphanumeric codepoints (Python `str.isalnum` restricted to the
modelled repertoire): ASCII digits and letters, the Latin-1 letters
ª µ º and À–ÿ minus the two operators × ÷, the Latin-1 numeric
characters ² ³ ¹ ¼ ½ ¾ (U+00B2 U+00B3 U+00B9 U+00BC U+00BD U+00BE),
and (by the convention above) every non-whitespace codepoint beyond
U+00FF. -/
def isAlnumCp (n : Nat) : Bool :=
  decide ((48 ≤ n ∧ n ≤ 57) ∨ (65 ≤ n ∧ n ≤ 90) ∨ (97 ≤ n ∧ n ≤ 122) ∨
    n = 170 ∨ n = 181 ∨ n = 186 ∨
    n = 178 ∨ n = 179 ∨ n = 185 ∨ n = 188 ∨ n = 189 ∨ n = 190 ∨
    (192 ≤ n ∧ n ≤ 255 ∧ n ≠ 215 ∧ n ≠ 247) ∨
    (256 ≤ n ∧ isSpaceCp n = false))

/-- Python's `\w` word-character class: alphanumeric or underscore. -/
def isWordCp (n : Nat) : Bool :=
  decide (isAlnumCp n = true ∨ n = 95)

/-- The character class kept by the sanitizer regex
`re.sub(r"[^\w@.\sÀ-ÿ-]", "", value)` in `clean_cell` (app.py line 118):
`\w`, `@`, `.`, `\s`, the literal range À–ÿ (U+00C0–U+00FF, which
includes × and ÷), and `-`. -/
def codeKeepCp (n : Nat) : Bool :=
  decide (isWordCp n = true ∨ n = 64 ∨ n = 46 ∨ isSpaceCp n = true ∨
    (192 ≤ n ∧ n ≤ 255) ∨ n = 45)

/-- `re.sub(r"[^\w@.\sÀ-ÿ-]", "", value)`: delete every character not in
the kept class. -/
def sanitizeCp (v : List Nat) : List Nat :=
  v.filter codeKeepCp

/-- The character class the SPEC claims the sanitizer keeps (spec §4.3
step 3, claim C3): "alphanumeric, accented Latin letter, whitespace,
`@`, `.`, or `-`" — written from the spec's words, to be compared with
`codeKeepCp`. -/
def specKeepCp (n : Nat) : Bool :=
  decide (isAlnumCp n = true ∨ (192 ≤ n ∧ n ≤ 255 ∧ n ≠ 215 ∧ n ≠ 247) ∨
    isSpaceCp n = true ∨ n = 64 ∨ n = 46 ∨ n = 45)

/-- The amended keep class: word characters (alphanumeric or
underscore), anything in the literal range U+00C0–U+00FF (including ×
and ÷), whitespace, `@`, `.`, `-`. -/
def amendedKeepCp (n : Nat) : Bool :=
  decide (isAlnumCp n = true ∨ n = 95 ∨ (192 ≤ n ∧ n ≤ 255) ∨
    isSpaceCp n = true ∨ n = 64 ∨ n = 46 ∨ n = 45)

/-- Python `str.lower`, one codepoint (no expansion occurs on the
modelled repertoire). -/
def pyLowerCp (n : Nat) : Nat :=
  if 65 ≤ n ∧ n ≤ 90 then n + 32
  else if 192 ≤ n ∧ n ≤ 222 ∧ n ≠ 215 then n + 32
  else if n = 376 then 255
  else if n = 924 then 956
  else n

/-- Python `str.upper`, one codepoint, for the codepoints reachable in
this development (ß is handled separately by `pyTitleOne`). -/
def pyUpperCp (n : Nat) : Nat :=
  if 97 ≤ n ∧ n ≤ 122 then n - 32
  else if n = 181 then 924
  else if n = 255 then 376
  else if 224 ≤ n ∧ n ≤ 254 ∧ n ≠ 247 then n - 32
  else n

/-- Title-case of the first character in `str.capitalize`: ß expands to
"Ss"; every other modelled codepoint title-cases to its upper case. -/
def pyTitleOne (n : Nat) : List Nat :=
  if n = 223 then [83, 115] else [pyUpperCp n]

/-- Python `str.capitalize`: title-case the first character, lower-case
the rest. -/
def pyCapitalize : List Nat → List Nat
  | [] => []
  | c :: rest => pyTitleOne c ++ rest.map pyLowerCp

/-- Python `str.strip()`: remove leading and trailing whitespace. -/
def pyStrip (v : List Nat) : List Nat :=
  ((v.dropWhile isSpaceCp).reverse.dropWhile isSpaceCp).reverse

/-- Worker for Python `str.split()` (split on whitespace runs, no empty
tokens); `acc` holds the current token reversed. -/
def pySplitAux : List Nat → List Nat → List (List Nat)
  | [], acc => if acc.isEmpty then [] else [acc.reverse]
  | c :: rest, acc =>
      if isSpaceCp c then
        if acc.isEmpty then pySplitAux rest []
        else acc.reverse :: pySplitAux rest []
      else pySplitAux rest (c :: acc)

/-- Python `str.split()` with no separator argument. -/
def pySplit (v : List Nat) : List (List Nat) :=
  pySplitAux v []

/-- Python `" ".join(tokens)`. -/
def joinSp : List (List Nat) → List Nat
  | [] => []
  | t :: ts =>
      match ts with
      | [] => t
      | _ :: _ => t ++ 32 :: joinSp ts

/-- The email regex `^[^@\s]+@[^@\s]+\.[^@\s]+$` of `clean_cell`
(app.py line 121) matched against the WHOLE string (`$` at the very
end), as a decidable predicate: no whitespace anywhere, exactly one `@`
which is not the first character, and — writing `t` for the segment
after the `@` — a `.` that is neither the first nor the last character
of `t`. -/
def emailMatchCore (v : List Nat) : Bool :=
  decide ((∀ c ∈ v, isSpaceCp c = false) ∧
    v.count 64 = 1 ∧
    (∀ c, v.head? = some c → c ≠ 64) ∧
    46 ∈ ((((v.dropWhile fun n => n != 64).drop 1).drop 1).dropLast))

/-- `re.match(r"^[^@\s]+@[^@\s]+\.[^@\s]+$", value)` (app.py line 121).
Python's `$` matches at the end of the string or just before a newline
at the end of the string, so the regex also accepts a value consisting
of a full match followed by exactly one trailing `\n` (codepoint 10). -/
def emailMatch (v : List Nat) : Bool :=
  emailMatchCore v || (v.getLast? == some 10 && emailMatchCore v.dropLast)

/-- The three options of `/excel-cleaner` (app.py lines 96–98). -/
structure CleaningOptions where
  removeDuplicates : Bool
  cleanEmails : Bool
  sanitizeCharacters : Bool
deriving DecidableEq, Repr

/-- `clean_cell` (app.py lines 112–125).  A cell is `none` when pandas
reports it missing (`pd.isna`), and otherwise a string.  The function
strips, optionally sanitizes, handles the email branch, and otherwise
title-cases whitespace-separated tokens joined by single spaces. -/
def clean_cell (o : CleaningOptions) (v : Option (List Nat)) : Option (List Nat) :=
  match v with
  | none => none
  | some raw =>
      let value₁ := pyStrip raw
      let value₂ := if o.sanitizeCharacters then sanitizeCp value₁ else value₁
      if o.cleanEmails = true ∧ 64 ∈ value₂ then
        if emailMatch value₂ then some (value₂.map pyLowerCp) else none
      else
        some (joinSp ((pySplit value₂).map pyCapitalize))

/-- `MAX_CHARS = 10000` (app.py line 45). -/
def MAX_CHARS : Nat := 10000

/-- The JSON body of a successful `/extract` response; `truncated`
models the `partial` field. -/
structure ExtractionResult where
  text : List Nat
  truncated : Bool
  charCount : Nat
deriving DecidableEq, Repr

/-- `extract_pdf`'s successful path (app.py lines 62–71): join the page
texts with a newline, truncate to `MAX_CHARS` when longer, and report
`len(full_text)` after the possible truncation as `charCount`. -/
def extract_pdf (pages : List (List Nat)) : ExtractionResult :=
  let fullText := List.intercalate [10] pages
  if MAX_CHARS < fullText.length then
    ⟨fullText.take MAX_CHARS, true, (fullText.take MAX_CHARS).length⟩
  else
    ⟨fullText, false, fullText.length⟩

/-! ## `/excel-cleaner` row pipeline (app.py lines 127–132) -/

/-- `df.drop_duplicates()` (pandas, keep="first"): keep a row exactly
when no earlier row equals it; `seen` accumulates the rows kept so far. -/
def dropDupAux {α : Type} [DecidableEq α] (seen : List α) : List α → List α
  | [] => []
  | r :: rest =>
      if r ∈ seen then dropDupAux seen rest
      else r :: dropDupAux (r :: seen) rest

/-- `df.drop_duplicates()` on the row list. -/
def dropDuplicatesRows {α : Type} [DecidableEq α] (rows : List α) : List α :=
  dropDupAux [] rows

/-- The claim's description of deduplication, written from the spec's
words: row `i` survives exactly when no earlier row (an index `< i`)
equals it, and survivors keep their relative order. -/
def specDedup {α : Type} [DecidableEq α] (rows : List α) : List α :=
  (List.range rows.length).filterMap fun i =>
    (rows.drop i).head?.bind fun r =>
      if r ∈ rows.take i then none else some r

/-- One raw row of the parsed table: each cell is missing or a string. -/
abbrev RawRow := List (Option (List Nat))

/-- `df.applymap(clean_cell)` (app.py line 127). -/
def cleanRows (o : CleaningOptions) (rows : List RawRow) : List RawRow :=
  rows.map fun r => r.map (clean_cell o)

/-- The row pipeline of `excel_cleaner` (app.py lines 127–132): clean
every cell, then drop duplicate rows when `removeDuplicates` is set. -/
def excel_cleaner_rows (o : CleaningOptions) (rows : List RawRow) : List RawRow :=
  if o.removeDuplicates then dropDuplicatesRows (cleanRows o rows)
  else cleanRows o rows

/-! ## `/pdf-compress` (app.py lines 143–236) -/

/-- `gs_quality_map.get(mode, "/ebook")` (app.py lines 174–180). -/
def gs_quality (mode : String) : String :=
  if mode = "lossless" then "/prepress"
  else if mode = "moderate" then "/ebook"
  else if mode = "extreme" then "/screen"
  else "/ebook"

/-- `request.form.get("mode", "lossless")` (app.py line 159). -/
def formMode (m : Option String) : String := m.getD "lossless"

/-- The Ghostscript command list (app.py lines 185–200).  `gsBinary`
abstracts the platform check of line 182; `resolution` is the raw form
value, appended as `-r<value>` only when non-empty (Python truthiness
of `if resolution:`). -/
def gsCommand (gsBinary mode : String) (resolution : Option String)
    (outputPath tempInput : String) : List String :=
  let base := [gsBinary, "-sDEVICE=pdfwrite", "-dCompatibilityLevel=1.4",
    "-dPDFSETTINGS=" ++ gs_quality mode, "-dNOPAUSE", "-dQUIET", "-dBATCH",
    "-sOutputFile=" ++ outputPath, tempInput]
  match resolution with
  | none => base
  | some r => if r = "" then base else base ++ ["-r" ++ r]

/-- `static/{basename}_input_{uuid}.pdf` (app.py line 165). -/
def tempInputPath (basename hex1 : String) : String :=
  "static/" ++ basename ++ "_input_" ++ hex1 ++ ".pdf"

/-- `{basename}_compressed_{uuid}.pdf` joined under `static`
(app.py lines 170–171). -/
def outputPathOf (basename hex2 : String) : String :=
  "static/" ++ (basename ++ "_compressed_" ++ hex2 ++ ".pdf")

/-- Observable side effects of a request, in program order. -/
inductive FsEvent where
  | mkdir (p : String)
  | write (p : String)
  | remove (p : String)
  | runConv (cmd : List String)
  | appendLog
deriving DecidableEq, Repr

/-- The side-effect trace of the `try` block of `pdf_compress`
(app.py lines 161–229) together with its success flag.  `convOk` is the
outcome of `subprocess.run(command, check=True)`: on a non-zero exit
the `CalledProcessError` jumps to the handler of line 231, so every
statement after line 202 — including `os.remove(temp_input)` of
line 208 — is skipped. -/
def pdf_compress_events (convOk : Bool) (basename hex1 hex2 mode : String)
    (resolution : Option String) : List FsEvent × Bool :=
  let tempInput := tempInputPath basename hex1
  let outputPath := outputPathOf basename hex2
  let cmd := gsCommand "gs" mode resolution outputPath tempInput
  if convOk then
    ([.mkdir "static", .write tempInput, .runConv cmd,
      .remove tempInput, .appendLog], true)
  else
    ([.mkdir "static", .write tempInput, .runConv cmd], false)

/-- Round a rational to the nearest integer, ties to even (Python's
`round` on an exactly-representable value, modelling floats as exact
rationals). -/
def pyRoundTiesEven (q : ℚ) : ℤ :=
  let f := ⌊q⌋
  let r := q - (f : ℚ)
  if r < 1/2 then f
  else if (1:ℚ)/2 < r then f + 1
  else if 2 ∣ f then f else f + 1

/-- Python `round(x, 2)`. -/
def pyRound2 (q : ℚ) : ℚ := (pyRoundTiesEven (q * 100) : ℚ) / 100

/-- The size-gain block of `pdf_compress` (app.py lines 210–229):
`gainPercent = round(100 * (1 - compressed_size / original_size), 2)`
and the advisory alert of lines 213–217, with one wording when the
active mode is the default `lossless` and another otherwise. -/
structure CompressionReport where
  originalSize : Nat
  compressedSize : Nat
  gainPercent : ℚ
  alert : Option String
deriving DecidableEq, Repr

/-- Build the `CompressionReport` exactly as app.py lines 210–217. -/
def compressionReport (mode : String) (originalSize compressedSize : Nat) :
    CompressionReport :=
  { originalSize := originalSize
    compressedSize := compressedSize
    gainPercent := pyRound2 (100 * (1 - (compressedSize : ℚ) / (originalSize : ℚ)))
    alert :=
      if originalSize ≤ compressedSize then
        if mode = "lossless" then
          some "Compression inefficace. Essayez le mode 'moderate' pour de meilleurs résultats."
        else
          some "Compression inefficace : le fichier est plus lourd après compression."
      else none }

/-! ## Request pipeline and the `before_request` cleanup hook
(app.py lines 29–43, 51–59, 88–110, 143–150) -/

/-- The three routes. -/
inductive Route where
  | extractRoute
  | excelRoute
  | compressRoute
deriving DecidableEq, Repr

/-- `filename.lower().endswith(ext)`: case-insensitive suffix test on
codepoint lists. -/
def lowerEndsWith (filename ext : List Nat) : Bool :=
  ext.isSuffixOf (filename.map pyLowerCp)

/-- `".pdf"`, `".csv"`, `".xlsx"` as codepoints. -/
def extPdf : List Nat := [46, 112, 100, 102]
def extCsv : List Nat := [46, 99, 115, 118]
def extXlsx : List Nat := [46, 120, 108, 115, 120]

/-- Extension acceptance per route (app.py lines 58, 101–110, 149). -/
def extensionOk (r : Route) (filename : List Nat) : Bool :=
  match r with
  | .extractRoute => lowerEndsWith filename extPdf
  | .excelRoute => lowerEndsWith filename extCsv || lowerEndsWith filename extXlsx
  | .compressRoute => lowerEndsWith filename extPdf

/-- `cleanup_old_files` (app.py lines 29–43), registered with
`@app.before_request`, hence run at the start of EVERY request: delete
each file of the `static` folder whose mtime is older than
`now - 24*3600`. -/
def cleanup_old_files (now : Nat) (staticFiles : List (String × Nat)) :
    List FsEvent :=
  staticFiles.filterMap fun f =>
    if f.2 + 24 * 3600 < now then some (FsEvent.remove f.1) else none

/-- The app's handling of a request whose file field is present but
whose filename fails the route's extension check: the `before_request`
hook runs first (with its deletions), then the route handler returns
400 having performed no write, delete or subprocess call of its own
(app.py lines 58–59, 109–110, 149–150).  The result is the response
status and the FULL side-effect trace of the request; a request whose
extension passes continues into the pipeline models above (`none`). -/
def appWrongExtension (now : Nat) (staticFiles : List (String × Nat))
    (r : Route) (filename : List Nat) : Option (Nat × List FsEvent) :=
  if extensionOk r filename then none
  else some (400, cleanup_old_files now staticFiles ++ [])

/-! ## Codepoint lemmas -/

lemma bool_eq_of_iff {a b : Bool} (h : a = true ↔ b = true) : a = b := by
  cases a <;> cases b <;> simp_all

lemma isSpaceCp_pyLowerCp (n : Nat) : isSpaceCp (pyLowerCp n) = isSpaceCp n := by
  apply bool_eq_of_iff
  simp only [isSpaceCp, decide_eq_true_eq]
  unfold pyLowerCp
  split_ifs <;> omega

lemma isSpaceCp_pyUpperCp (n : Nat) : isSpaceCp (pyUpperCp n) = isSpaceCp n := by
  apply bool_eq_of_iff
  simp only [isSpaceCp, decide_eq_true_eq]
  unfold pyUpperCp
  split_ifs <;> omega

lemma pyLowerCp_idem (n : Nat) : pyLowerCp (pyLowerCp n) = pyLowerCp n := by
  unfold pyLowerCp
  split_ifs <;> omega

lemma pyLowerCp_eq_64 (n : Nat) : pyLowerCp n = 64 ↔ n = 64 := by
  unfold pyLowerCp
  split_ifs <;> omega

lemma pyUpperCp_eq_64 (n : Nat) : pyUpperCp n = 64 ↔ n = 64 := by
  unfold pyUpperCp
  split_ifs <;> omega

lemma pyLowerCp_eq_46 (n : Nat) : pyLowerCp n = 46 ↔ n = 46 := by
  unfold pyLowerCp
  split_ifs <;> omega

lemma codeKeepCp_eq_amendedKeepCp (n : Nat) : codeKeepCp n = amendedKeepCp n := by
  apply bool_eq_of_iff
  simp only [codeKeepCp, amendedKeepCp, isWordCp, isAlnumCp, isSpaceCp,
    decide_eq_true_eq, decide_eq_false_iff_not]
  omega

/-! ## String-operation lemmas -/

lemma mem_of_head?_eq {α : Type} {l : List α} {c : α} (h : l.head? = some c) :
    c ∈ l := by
  cases l with
  | nil => simp at h
  | cons a t =>
      simp only [List.head?_cons, Option.some.injEq] at h
      simp [h.symm]

lemma mem_of_getLast?_eq {α : Type} {l : List α} {c : α} (h : l.getLast? = some c) :
    c ∈ l := by
  rw [List.getLast?_eq_head?_reverse] at h
  exact List.mem_reverse.mp (mem_of_head?_eq h)

lemma pySplitAux_token (t : List Nat) (h : ∀ c ∈ t, isSpaceCp c = false) :
    ∀ rest acc, pySplitAux (t ++ rest) acc = pySplitAux rest (t.reverse ++ acc) := by
  induction t with
  | nil => intro rest acc; simp
  | cons c t' ih =>
      intro rest acc
      have hc : isSpaceCp c = false := h c (by simp)
      simp only [List.cons_append, pySplitAux, hc, Bool.false_eq_true, if_false]
      rw [show t'.append rest = t' ++ rest from rfl]
      rw [ih (fun a ha => h a (by simp [ha])) rest (c :: acc)]
      simp

lemma pySplitAux_mem : ∀ (v acc t : List Nat),
    t ∈ pySplitAux v acc → (∀ c ∈ acc, isSpaceCp c = false) →
    t ≠ [] ∧ ∀ c ∈ t, isSpaceCp c = false ∧ (c ∈ v ∨ c ∈ acc) := by
  intro v
  induction v with
  | nil =>
      intro acc t ht hacc
      by_cases h : acc.isEmpty
      · simp [pySplitAux, h] at ht
      · simp only [pySplitAux, h, Bool.false_eq_true, if_false,
          List.mem_singleton] at ht
        subst ht
        constructor
        · simp only [List.isEmpty_iff] at h
          simp [h]
        · intro c hc
          have hc' : c ∈ acc := List.mem_reverse.mp hc
          exact ⟨hacc c hc', Or.inr hc'⟩
  | cons a v' ih =>
      intro acc t ht hacc
      cases hsp : isSpaceCp a with
      | true =>
          by_cases h : acc.isEmpty
          · simp only [pySplitAux, hsp, if_true, h] at ht
            obtain ⟨h1, h2⟩ := ih [] t ht (by simp)
            refine ⟨h1, fun c hc => ?_⟩
            obtain ⟨hs, hm⟩ := h2 c hc
            rcases hm with hm | hm
            · exact ⟨hs, Or.inl (by simp [hm])⟩
            · simp at hm
          · simp only [pySplitAux, hsp, if_true, h, Bool.false_eq_true, if_false,
              List.mem_cons] at ht
            rcases ht with ht | ht
            · subst ht
              constructor
              · simp only [List.isEmpty_iff] at h
                simp [h]
              · intro c hc
                have hc' : c ∈ acc := List.mem_reverse.mp hc
                exact ⟨hacc c hc', Or.inr hc'⟩
            · obtain ⟨h1, h2⟩ := ih [] t ht (by simp)
              refine ⟨h1, fun c hc => ?_⟩
              obtain ⟨hs, hm⟩ := h2 c hc
              rcases hm with hm | hm
              · exact ⟨hs, Or.inl (by simp [hm])⟩
              · simp at hm
      | false =>
          simp only [pySplitAux, hsp, Bool.false_eq_true, if_false] at ht
          have hacc' : ∀ c ∈ a :: acc, isSpaceCp c = false := by
            intro c hc
            rcases List.mem_cons.mp hc with hc | hc
            · subst hc; exact hsp
            · exact hacc c hc
          obtain ⟨h1, h2⟩ := ih (a :: acc) t ht hacc'
          refine ⟨h1, fun c hc => ?_⟩
          obtain ⟨hs, hm⟩ := h2 c hc
          rcases hm with hm | hm
          · exact ⟨hs, Or.inl (by simp [hm])⟩
          · rcases List.mem_cons.mp hm with hm | hm
            · exact ⟨hs, Or.inl (by simp [hm])⟩
            · exact ⟨hs, Or.inr hm⟩

lemma pySplit_tokens {v t : List Nat} (ht : t ∈ pySplit v) :
    t ≠ [] ∧ ∀ c ∈ t, isSpaceCp c = false ∧ c ∈ v := by
  obtain ⟨h1, h2⟩ := pySplitAux_mem v [] t ht (by simp)
  refine ⟨h1, fun c hc => ?_⟩
  obtain ⟨hs, hm⟩ := h2 c hc
  rcases hm with hm | hm
  · exact ⟨hs, hm⟩
  · simp at hm

lemma joinSp_mem {ts : List (List Nat)} {c : Nat} (hc : c ∈ joinSp ts) :
    c = 32 ∨ ∃ t ∈ ts, c ∈ t := by
  induction ts with
  | nil => simp [joinSp] at hc
  | cons t ts' ih =>
      cases ts' with
      | nil => exact Or.inr ⟨t, by simp, hc⟩
      | cons t'' ts'' =>
          simp only [joinSp, List.mem_append, List.mem_cons] at hc
          rcases hc with hc | hc | hc
          · exact Or.inr ⟨t, by simp, hc⟩
          · exact Or.inl hc
          · rcases ih hc with h32 | ⟨u, hu, hcu⟩
            · exact Or.inl h32
            · exact Or.inr ⟨u, by simp [hu], hcu⟩

lemma pySplit_joinSp {ts : List (List Nat)} (h1 : ∀ t ∈ ts, t ≠ [])
    (h2 : ∀ t ∈ ts, ∀ c ∈ t, isSpaceCp c = false) :
    pySplit (joinSp ts) = ts := by
  induction ts with
  | nil => rfl
  | cons t ts' ih =>
      have htne : t ≠ [] := h1 t (by simp)
      have htf : ∀ c ∈ t, isSpaceCp c = false := h2 t (by simp)
      cases ts' with
      | nil =>
          show pySplit (joinSp [t]) = [t]
          have h := pySplitAux_token t htf [] []
          simp only [List.append_nil] at h
          unfold pySplit
          rw [show joinSp [t] = t from rfl, h]
          simp only [pySplitAux]
          rw [if_neg (by simp [List.isEmpty_iff, htne])]
          simp
      | cons t'' ts'' =>
          show pySplit (t ++ 32 :: joinSp (t'' :: ts'')) = t :: t'' :: ts''
          unfold pySplit
          rw [pySplitAux_token t htf (32 :: joinSp (t'' :: ts'')) []]
          simp only [pySplitAux, show isSpaceCp 32 = true by decide, if_true]
          rw [if_neg (by simp [List.isEmpty_iff, htne])]
          simp only [List.append_nil, List.reverse_reverse]
          have := ih (fun u hu => h1 u (by simp [hu]))
            (fun u hu => h2 u (by simp [hu]))
          unfold pySplit at this
          rw [this]

/-! ## Capitalize lemmas -/

lemma map_pyLowerCp_idem (l : List Nat) :
    (l.map pyLowerCp).map pyLowerCp = l.map pyLowerCp := by
  rw [List.map_map]
  exact List.map_congr_left fun a _ => pyLowerCp_idem a

lemma pyCapitalize_ne_nil {w : List Nat} (h : w ≠ []) : pyCapitalize w ≠ [] := by
  cases w with
  | nil => exact absurd rfl h
  | cons c rest =>
      simp only [pyCapitalize, pyTitleOne]
      split_ifs <;> simp

lemma pyCapitalize_space {w : List Nat} (hw : ∀ c ∈ w, isSpaceCp c = false) :
    ∀ c ∈ pyCapitalize w, isSpaceCp c = false := by
  cases w with
  | nil => simp [pyCapitalize]
  | cons a rest =>
      intro c hc
      simp only [pyCapitalize, List.mem_append] at hc
      rcases hc with hc | hc
      · simp only [pyTitleOne] at hc
        split_ifs at hc with h223
        · rcases List.mem_cons.mp hc with rfl | hc
          · decide
          · rcases List.mem_singleton.mp hc with rfl
            decide
        · rcases List.mem_singleton.mp hc with rfl
          rw [isSpaceCp_pyUpperCp]
          exact hw a (by simp)
      · obtain ⟨b, hb, rfl⟩ := List.mem_map.mp hc
        rw [isSpaceCp_pyLowerCp]
        exact hw b (by simp [hb])

lemma pyCapitalize_no64 {w : List Nat} (hw : 64 ∉ w) : 64 ∉ pyCapitalize w := by
  cases w with
  | nil => simp [pyCapitalize]
  | cons a rest =>
      intro hc
      simp only [pyCapitalize, List.mem_append] at hc
      rcases hc with hc | hc
      · simp only [pyTitleOne] at hc
        split_ifs at hc with h223
        · simp at hc
        · rcases List.mem_singleton.mp hc with h64
          have : a = 64 := (pyUpperCp_eq_64 a).mp h64.symm
          exact hw (by simp [this])
      · obtain ⟨b, hb, hbe⟩ := List.mem_map.mp hc
        have : b = 64 := (pyLowerCp_eq_64 b).mp hbe
        exact hw (by simp [this ▸ hb])

lemma sanitizeCp_idem (v : List Nat) : sanitizeCp (sanitizeCp v) = sanitizeCp v :=
  List.filter_eq_self.mpr fun _ ha => (List.mem_filter.mp ha).2

lemma dropDupAux_eq {α : Type} [DecidableEq α] (l : List α) : ∀ seen : List α,
    dropDupAux seen l =
      (List.range l.length).filterMap fun i =>
        (l.drop i).head?.bind fun r =>
          if r ∈ seen ++ l.take i then none else some r := by
  induction l with
  | nil => intro seen; simp [dropDupAux]
  | cons a t ih =>
      intro seen
      simp only [List.length_cons]
      rw [List.range_succ_eq_map]
      by_cases h : a ∈ seen
      · have step : List.filterMap
            (fun i => ((a :: t).drop i).head?.bind fun r =>
              if r ∈ seen ++ (a :: t).take i then none else some r)
            (0 :: List.map Nat.succ (List.range t.length)) =
            List.filterMap
              (fun i => ((a :: t).drop i).head?.bind fun r =>
                if r ∈ seen ++ (a :: t).take i then none else some r)
              (List.map Nat.succ (List.range t.length)) :=
          List.filterMap_cons_none (by simp [h])
        rw [step, List.filterMap_map]
        simp only [dropDupAux, if_pos h]
        rw [ih seen]
        apply List.filterMap_congr
        intro i _
        simp only [Function.comp_apply, List.drop_succ_cons, List.take_succ_cons]
        cases hd : (t.drop i).head? with
        | none => rfl
        | some r =>
            simp only [Option.some_bind]
            refine if_congr ?_ rfl rfl
            simp only [List.mem_append, List.mem_cons]
            constructor
            · rintro (hs | hs)
              · exact Or.inl hs
              · exact Or.inr (Or.inr hs)
            · rintro (hs | hs | hs)
              · exact Or.inl hs
              · exact Or.inl (by rw [hs]; exact h)
              · exact Or.inr hs
      · have step : List.filterMap
            (fun i => ((a :: t).drop i).head?.bind fun r =>
              if r ∈ seen ++ (a :: t).take i then none else some r)
            (0 :: List.map Nat.succ (List.range t.length)) =
            a :: List.filterMap
              (fun i => ((a :: t).drop i).head?.bind fun r =>
                if r ∈ seen ++ (a :: t).take i then none else some r)
              (List.map Nat.succ (List.range t.length)) :=
          List.filterMap_cons_some (by simp [h])
        rw [step, List.filterMap_map]
        simp only [dropDupAux, if_neg h]
        rw [ih (a :: seen)]
        refine congrArg (List.cons a) ?_
        apply List.filterMap_congr
        intro i _
        simp only [Function.comp_apply, List.drop_succ_cons, List.take_succ_cons]
        cases hd : (t.drop i).head? with
        | none => rfl
        | some r =>
            simp only [Option.some_bind]
            refine if_congr ?_ rfl rfl
            simp only [List.cons_append, List.mem_append, List.mem_cons]
            constructor
            · rintro (hs | hs | hs)
              · exact Or.inr (Or.inl hs)
              · exact Or.inl hs
              · exact Or.inr (Or.inr hs)
            · rintro (hs | hs | hs)
              · exact Or.inr (Or.inl hs)
              · exact Or.inl hs
              · exact Or.inr (Or.inr hs)

lemma dropDuplicatesRows_eq_specDedup {α : Type} [DecidableEq α] (l : List α) :
    dropDuplicatesRows l = specDedup l := by
  unfold dropDuplicatesRows specDedup
  rw [dropDupAux_eq]
  apply List.filterMap_congr
  intro i _
  simp

/-! ## Claim theorems -/

lemma intercalate_newline_singleton (l : List Nat) :
    List.intercalate [10] [l] = l := by
  simp [List.intercalate]

/-- C1: for every PDF accepted by `/extract`, if the newline-joined page text
has length at most 10,000 then the response is not partial, its `text` is the
full joined text and `charCount` is its length; if the joined text is longer,
`text` is exactly the first 10,000 characters, the response is partial, and
`charCount` is 10,000. -/
theorem extract_pdf_truncation (pages : List (List Nat)) :
    ((List.intercalate [10] pages).length ≤ MAX_CHARS →
      (extract_pdf pages).truncated = false ∧
      (extract_pdf pages).text = List.intercalate [10] pages ∧
      (extract_pdf pages).charCount = (List.intercalate [10] pages).length) ∧
    (MAX_CHARS < (List.intercalate [10] pages).length →
      (extract_pdf pages).text = (List.intercalate [10] pages).take MAX_CHARS ∧
      (extract_pdf pages).truncated = true ∧
      (extract_pdf pages).charCount = MAX_CHARS) := by
  constructor
  · intro h
    have hnot : ¬ MAX_CHARS < (List.intercalate [10] pages).length := not_lt.mpr h
    simp [extract_pdf, hnot]
  · intro h
    refine ⟨?_, ?_, ?_⟩ <;> (simp [extract_pdf, h, List.length_take]; try omega)

/-- Witness for C1 at two concrete inputs: a two-character single page
(below the cap) and a 10,001-character single page (above the cap). -/
theorem extract_pdf_truncation_witness :
    ((extract_pdf [[104, 105]]).truncated = false ∧
      (extract_pdf [[104, 105]]).text = List.intercalate [10] [[104, 105]] ∧
      (extract_pdf [[104, 105]]).charCount =
        (List.intercalate [10] [[104, 105]]).length) ∧
    ((extract_pdf [List.replicate 10001 97]).text =
        (List.intercalate [10] [List.replicate 10001 97]).take MAX_CHARS ∧
      (extract_pdf [List.replicate 10001 97]).truncated = true ∧
      (extract_pdf [List.replicate 10001 97]).charCount = MAX_CHARS) :=
  ⟨(extract_pdf_truncation [[104, 105]]).1 (by decide),
   (extract_pdf_truncation [List.replicate 10001 97]).2 (by
      rw [intercalate_newline_singleton, List.length_replicate]
      norm_num [MAX_CHARS])⟩

/-- C3 counterexample: the code's sanitizer keeps the underscore (it is in
Python's `\w` class), while the claimed keep set (alphanumeric, accented
Latin letter, whitespace, `@`, `.`, `-`) excludes it, so the claim that
every character outside that set is removed fails at `"_"`. -/
theorem sanitize_spec_counterexample :
    sanitizeCp [95] = [95] ∧ List.filter specKeepCp [95] = [] ∧
      specKeepCp 95 = false := by decide

/-- C3 amended: when `sanitizeCharacters` is enabled, cleaning strips exactly
those characters that are not word characters (alphanumeric or underscore),
not in the literal range U+00C0–U+00FF (which includes `×` and `÷`), not
whitespace, and not one of `@`, `.`, `-`. -/
theorem sanitize_amended (v : List Nat) :
    sanitizeCp v = v.filter amendedKeepCp := by
  unfold sanitizeCp
  exact List.filter_congr fun a _ => codeKeepCp_eq_amendedKeepCp a

/-- C4: `gainPercent` equals `round(100 * (1 - compressedSize/originalSize), 2)`
(the division modelled as exact rational arithmetic), `alert` is non-null
exactly when `compressedSize >= originalSize`, and at the spec's example
sizes the gain is 25.0 and an oversized result carries a non-null alert. -/
theorem compression_gain_alert (mode : String) (originalSize compressedSize : Nat) :
    (compressionReport mode originalSize compressedSize).gainPercent =
      pyRound2 (100 * (1 - (compressedSize : ℚ) / (originalSize : ℚ))) ∧
    ((compressionReport mode originalSize compressedSize).alert ≠ none ↔
      originalSize ≤ compressedSize) ∧
    (compressionReport "lossless" 1000000 750000).gainPercent = 25 ∧
    (compressionReport "lossless" 1000000 1100000).alert ≠ none := by
  refine ⟨rfl, ?_, ?_, ?_⟩
  · unfold compressionReport
    split_ifs with h1 h2 <;> simp [h1]
  · show pyRound2 (100 * (1 - (750000 : ℚ) / (1000000 : ℚ))) = 25
    have h1 : (100 : ℚ) * (1 - (750000 : ℚ) / (1000000 : ℚ)) = 25 := by norm_num
    rw [h1]
    unfold pyRound2 pyRoundTiesEven
    norm_num
  · simp [compressionReport]

/-- C8: an absent `mode` form value defaults to `lossless` (profile
`/prepress`), and any value outside lossless/moderate/extreme yields exactly
the Ghostscript command that `moderate` yields (profile `/ebook`), with no
error path taken. -/
theorem pdf_compress_mode_handling :
    gs_quality (formMode none) = "/prepress" ∧
    ∀ m : String, m ≠ "lossless" → m ≠ "moderate" → m ≠ "extreme" →
      ∀ (gsB : String) (res : Option String) (outP inP : String),
        gsCommand gsB m res outP inP = gsCommand gsB "moderate" res outP inP := by
  refine ⟨rfl, ?_⟩
  intro m h1 h2 h3 gsB res outP inP
  unfold gsCommand gs_quality
  rw [if_neg h1, if_neg h2, if_neg h3]
  rfl

/-- Witness for C8 at the unknown mode `"fast"`. -/
theorem pdf_compress_mode_handling_witness :
    gsCommand "gs" "fast" none "out.pdf" "in.pdf" =
      gsCommand "gs" "moderate" none "out.pdf" "in.pdf" :=
  pdf_compress_mode_handling.2 "fast" (by decide) (by decide) (by decide)
    "gs" none "out.pdf" "in.pdf"

/-- C2 counterexample: when the converter exits non-zero, the
`CalledProcessError` handler of app.py line 231 runs before the
`os.remove(temp_input)` of line 208, so the input artifact is NOT deleted on
that exit path — the trace of the failing run contains no remove event. -/
theorem pdf_compress_input_leak_on_failure :
    FsEvent.remove (tempInputPath "doc" "u1") ∉
      (pdf_compress_events false "doc" "u1" "u2" "lossless" none).1 := by
  decide

/-- C2 amended: the input artifact is deleted on the success path, and is not
deleted when the converter fails with a non-zero exit (it is left for the
external janitor). -/
theorem pdf_compress_input_release (convOk : Bool)
    (basename hex1 hex2 mode : String) (res : Option String) :
    (convOk = true →
      FsEvent.remove (tempInputPath basename hex1) ∈
        (pdf_compress_events convOk basename hex1 hex2 mode res).1) ∧
    (convOk = false →
      FsEvent.remove (tempInputPath basename hex1) ∉
        (pdf_compress_events convOk basename hex1 hex2 mode res).1) := by
  cases convOk with
  | true =>
      refine ⟨fun _ => ?_, by simp⟩
      simp [pdf_compress_events]
  | false =>
      refine ⟨by simp, fun _ => ?_⟩
      simp [pdf_compress_events]

/-- Witness for C2 (amended) on a concrete successful run. -/
theorem pdf_compress_input_release_witness :
    FsEvent.remove (tempInputPath "doc" "u1") ∈
      (pdf_compress_events true "doc" "u1" "u2" "lossless" none).1 :=
  (pdf_compress_input_release true "doc" "u1" "u2" "lossless" none).1 rfl

/-- C9 counterexample: a `.txt` upload to `/extract` does return 400, but the
request's side-effect trace is not empty — the `before_request` cleanup hook
(app.py lines 29–43) deletes a stale file from `static` during the request. -/
theorem wrong_extension_side_effect_counterexample :
    appWrongExtension 100000 [("stale.pdf", 0)] Route.extractRoute
        [97, 46, 116, 120, 116] =
      some (400, [FsEvent.remove "stale.pdf"]) := by decide

/-- C9 amended: a wrong-extension request to any route returns 400 and the
route handler itself performs no write, delete or subprocess call; every
side effect of the request is a deletion, by the `before_request` cleanup
hook, of a `static` file older than 24 hours. -/
theorem wrong_extension_no_route_effects (now : Nat)
    (staticFiles : List (String × Nat)) (r : Route) (filename : List Nat)
    (h : extensionOk r filename = false) :
    appWrongExtension now staticFiles r filename =
      some (400, cleanup_old_files now staticFiles) ∧
    ∀ e ∈ cleanup_old_files now staticFiles,
      ∃ p ∈ staticFiles, e = FsEvent.remove p.1 ∧ p.2 + 24 * 3600 < now := by
  constructor
  · simp [appWrongExtension, h]
  · intro e he
    unfold cleanup_old_files at he
    obtain ⟨p, hp, hpe⟩ := List.mem_filterMap.mp he
    by_cases hold : p.2 + 24 * 3600 < now
    · rw [if_pos hold] at hpe
      obtain rfl : FsEvent.remove p.1 = e := by simpa using hpe
      exact ⟨p, hp, rfl, hold⟩
    · rw [if_neg hold] at hpe
      exact absurd hpe (by simp)

/-- Witness for C9 (amended) on a concrete `.txt` upload to `/excel-cleaner`. -/
theorem wrong_extension_no_route_effects_witness :
    appWrongExtension 100000 [("stale.pdf", 0)] Route.excelRoute
        [97, 46, 116, 120, 116] =
      some (400, cleanup_old_files 100000 [("stale.pdf", 0)]) :=
  (wrong_extension_no_route_effects 100000 [("stale.pdf", 0)] Route.excelRoute
    [97, 46, 116, 120, 116] (by decide)).1

/-- C7: with `removeDuplicates` enabled, the `/excel-cleaner` row pipeline
equals the spec's description of deduplication — after cleaning, row `i`
survives exactly when no earlier row equals it, first occurrences are kept,
and relative order is preserved. -/
theorem excel_dedup_spec (o : CleaningOptions) (rows : List RawRow)
    (h : o.removeDuplicates = true) :
    excel_cleaner_rows o rows = specDedup (cleanRows o rows) := by
  unfold excel_cleaner_rows
  rw [if_pos h, dropDuplicatesRows_eq_specDedup]

/-- Witness for C7 on rows `[A, B, A]` (identical after cleaning), which
produce `[A, B]` in that order. -/
theorem excel_dedup_spec_witness :
    excel_cleaner_rows ⟨true, true, true⟩
        [[some [97]], [some [98]], [some [97]]] =
      specDedup (cleanRows ⟨true, true, true⟩
          [[some [97]], [some [98]], [some [97]]]) ∧
    excel_cleaner_rows ⟨true, true, true⟩
        [[some [97]], [some [98]], [some [97]]] =
      [[some [65]], [some [66]]] :=
  ⟨excel_dedup_spec ⟨true, true, true⟩ _ rfl, by decide⟩

lemma pySplit_single {v : List Nat} (h0 : v ≠ [])
    (h : ∀ c ∈ v, isSpaceCp c = false) : pySplit v = [v] := by
  have hh := pySplitAux_token v h [] []
  simp only [List.append_nil] at hh
  unfold pySplit
  rw [hh]
  simp only [pySplitAux]
  rw [if_neg (by simp [List.isEmpty_iff, h0])]
  simp

/-- C6: with `cleanEmails` enabled, when the trimmed (and optionally
sanitized) value contains `@`, the cell becomes absent exactly when the
value fails the email-shape regex of app.py line 121 (`emailMatch`, which —
by Python's `$` semantics — also accepts a full match followed by a single
trailing newline), and otherwise the result is the value lower-cased (no
title-casing). -/
theorem clean_cell_email_branch (o : CleaningOptions) (raw : List Nat)
    (he : o.cleanEmails = true)
    (h64 : 64 ∈ (if o.sanitizeCharacters then sanitizeCp (pyStrip raw)
      else pyStrip raw)) :
    clean_cell o (some raw) =
      if emailMatch (if o.sanitizeCharacters then sanitizeCp (pyStrip raw)
          else pyStrip raw) = true then
        some ((if o.sanitizeCharacters then sanitizeCp (pyStrip raw)
          else pyStrip raw).map pyLowerCp)
      else none := by
  simp only [clean_cell]
  rw [if_pos ⟨he, h64⟩]

/-- Witness for C6 at the spec's examples — `"John@Example.COM "` cleans to
`"john@example.com"` and `"not-an-email@@x"` becomes absent — plus the
regex's trailing-newline acceptance: `"a@b.c\n!"` cleans to `"a@b.c\n"`. -/
theorem clean_cell_email_branch_witness :
    clean_cell ⟨true, true, true⟩
        (some [74, 111, 104, 110, 64, 69, 120, 97, 109, 112, 108, 101, 46,
          67, 79, 77, 32]) =
      some [106, 111, 104, 110, 64, 101, 120, 97, 109, 112, 108, 101, 46,
        99, 111, 109] ∧
    clean_cell ⟨true, true, true⟩
        (some [110, 111, 116, 45, 97, 110, 45, 101, 109, 97, 105, 108, 64,
          64, 120]) = none ∧
    clean_cell ⟨true, true, true⟩
        (some [97, 64, 98, 46, 99, 10, 33]) =
      some [97, 64, 98, 46, 99, 10] :=
  ⟨(clean_cell_email_branch ⟨true, true, true⟩ _ rfl (by decide)).trans
      (by decide),
   (clean_cell_email_branch ⟨true, true, true⟩ _ rfl (by decide)).trans
      (by decide),
   (clean_cell_email_branch ⟨true, true, true⟩ _ rfl (by decide)).trans
      (by decide)⟩

/-- C10 counterexample: an email-branch result can contain whitespace.  With
all options on, `"a@b.c\n!"` cleans to `"a@b.c\n"`, an email-branch result
(it contains `@`) whose last character is a newline — refuting the claimed
"no whitespace at all" email invariant; that result is not
whitespace-normalized either. -/
theorem clean_cell_whitespace_counterexample :
    clean_cell ⟨true, true, true⟩ (some [97, 64, 98, 46, 99, 10, 33]) =
      some [97, 64, 98, 46, 99, 10] ∧
    (⟨true, true, true⟩ : CleaningOptions).cleanEmails = true ∧
    64 ∈ [97, 64, 98, 46, 99, 10] ∧
    10 ∈ [97, 64, 98, 46, 99, 10] ∧ isSpaceCp 10 = true ∧
    joinSp (pySplit [97, 64, 98, 46, 99, 10]) ≠ [97, 64, 98, 46, 99, 10] := by
  decide

/-- C10 amended: a non-absent result outside the email branch is
whitespace-normalized — a fixed point of split-and-rejoin (no leading or
trailing whitespace, tokens separated by exactly one space); an
email-branch result (`cleanEmails` on and the result contains `@`) is
entirely lower-case and contains no whitespace except possibly a single
trailing newline, which the regex accepts because Python's `$` matches
just before a final newline. -/
theorem clean_cell_whitespace_invariant (o : CleaningOptions)
    (v : Option (List Nat)) (s : List Nat) (h : clean_cell o v = some s) :
    (¬(o.cleanEmails = true ∧ 64 ∈ s) → joinSp (pySplit s) = s) ∧
    (o.cleanEmails = true → 64 ∈ s →
      s.map pyLowerCp = s ∧
      (∀ c ∈ s.dropLast, isSpaceCp c = false) ∧
      (∀ c, s.getLast? = some c → isSpaceCp c = false ∨ c = 10)) := by
  cases v with
  | none => simp [clean_cell] at h
  | some raw =>
      by_cases hb : o.cleanEmails = true ∧
          64 ∈ (if o.sanitizeCharacters then sanitizeCp (pyStrip raw) else pyStrip raw)
      · by_cases hm : emailMatch
            (if o.sanitizeCharacters then sanitizeCp (pyStrip raw)
              else pyStrip raw) = true
        · have hinner : clean_cell o (some raw) =
              some ((if o.sanitizeCharacters then sanitizeCp (pyStrip raw)
                else pyStrip raw).map pyLowerCp) := by
            simp only [clean_cell]
            rw [if_pos hb, if_pos hm]
          rw [hinner] at h
          obtain rfl := (Option.some.inj h).symm
          set value := (if o.sanitizeCharacters then sanitizeCp (pyStrip raw)
            else pyStrip raw) with hvalue
          unfold emailMatch at hm
          rw [Bool.or_eq_true, Bool.and_eq_true] at hm
          have h64s : 64 ∈ value.map pyLowerCp := by
            rcases hm with hc | ⟨_, hc⟩
            · simp only [emailMatchCore, decide_eq_true_eq] at hc
              have h64v : 64 ∈ value := by
                rw [← List.count_pos_iff, hc.2.1]
                exact Nat.one_pos
              exact List.mem_map.mpr ⟨64, h64v, rfl⟩
            · simp only [emailMatchCore, decide_eq_true_eq] at hc
              have h64v : 64 ∈ value.dropLast := by
                rw [← List.count_pos_iff, hc.2.1]
                exact Nat.one_pos
              exact List.mem_map.mpr
                ⟨64, List.mem_of_mem_dropLast h64v, rfl⟩
          refine ⟨fun hn => absurd ⟨hb.1, h64s⟩ hn, fun _ _ => ?_⟩
          refine ⟨map_pyLowerCp_idem value, ?_, ?_⟩
          · intro c hc
            rcases hm with hcore | ⟨_, hcoreD⟩
            · simp only [emailMatchCore, decide_eq_true_eq] at hcore
              obtain ⟨b, hb', rfl⟩ :=
                List.mem_map.mp (List.mem_of_mem_dropLast hc)
              rw [isSpaceCp_pyLowerCp]
              exact hcore.1 b hb'
            · simp only [emailMatchCore, decide_eq_true_eq] at hcoreD
              rw [← List.map_dropLast] at hc
              obtain ⟨b, hb', rfl⟩ := List.mem_map.mp hc
              rw [isSpaceCp_pyLowerCp]
              exact hcoreD.1 b hb'
          · intro c hc
            rcases hm with hcore | ⟨h10, _⟩
            · simp only [emailMatchCore, decide_eq_true_eq] at hcore
              obtain ⟨b, hb', rfl⟩ :=
                List.mem_map.mp (mem_of_getLast?_eq hc)
              left
              rw [isSpaceCp_pyLowerCp]
              exact hcore.1 b hb'
            · right
              have h10' : value.getLast? = some 10 := by simpa using h10
              rw [List.getLast?_map, h10'] at hc
              have : pyLowerCp 10 = 10 := by decide
              simp only [Option.map_some', this, Option.some.injEq] at hc
              exact hc.symm
        · have hinner : clean_cell o (some raw) = none := by
            simp only [clean_cell]
            rw [if_pos hb, if_neg hm]
          rw [hinner] at h
          simp at h
      · have hinner : clean_cell o (some raw) =
            some (joinSp ((pySplit (if o.sanitizeCharacters
              then sanitizeCp (pyStrip raw)
              else pyStrip raw)).map pyCapitalize)) := by
          simp only [clean_cell]
          rw [if_neg hb]
        rw [hinner] at h
        obtain rfl := (Option.some.inj h).symm
        set value := (if o.sanitizeCharacters then sanitizeCp (pyStrip raw)
          else pyStrip raw) with hvalue
        have hts_ne : ∀ t ∈ (pySplit value).map pyCapitalize, t ≠ [] := by
          intro t ht
          obtain ⟨w, hw, rfl⟩ := List.mem_map.mp ht
          exact pyCapitalize_ne_nil (pySplit_tokens hw).1
        have hts_sp : ∀ t ∈ (pySplit value).map pyCapitalize,
            ∀ c ∈ t, isSpaceCp c = false := by
          intro t ht
          obtain ⟨w, hw, rfl⟩ := List.mem_map.mp ht
          exact pyCapitalize_space fun c hc => ((pySplit_tokens hw).2 c hc).1
        refine ⟨fun _ => ?_, ?_⟩
        · rw [pySplit_joinSp hts_ne hts_sp]
        · intro he h64s
          exfalso
          rcases joinSp_mem h64s with h32 | ⟨t, ht, hct⟩
          · exact absurd h32 (by decide)
          · obtain ⟨w, hw, rfl⟩ := List.mem_map.mp ht
            refine pyCapitalize_no64 ?_ hct
            intro h64w
            exact hb ⟨he, ((pySplit_tokens hw).2 64 h64w).2⟩

/-- Witness for C10 (amended) at the email input `"j@b.c"`, whose cleaned
value `"j@b.c"` exercises the email-branch conjunct. -/
theorem clean_cell_whitespace_invariant_witness :
    (¬((⟨true, true, true⟩ : CleaningOptions).cleanEmails = true ∧
        64 ∈ [106, 64, 98, 46, 99]) →
      joinSp (pySplit [106, 64, 98, 46, 99]) = [106, 64, 98, 46, 99]) ∧
    ((⟨true, true, true⟩ : CleaningOptions).cleanEmails = true →
      64 ∈ [106, 64, 98, 46, 99] →
      [106, 64, 98, 46, 99].map pyLowerCp = [106, 64, 98, 46, 99] ∧
      (∀ c ∈ [106, 64, 98, 46, 99].dropLast, isSpaceCp c = false) ∧
      (∀ c, [106, 64, 98, 46, 99].getLast? = some c →
        isSpaceCp c = false ∨ c = 10)) :=
  clean_cell_whitespace_invariant ⟨true, true, true⟩
    (some [106, 64, 98, 46, 99]) [106, 64, 98, 46, 99] (by decide)
